import Mathlib

/-!
Verification development for the VisionParse export/reconciliation pipeline
(src/app.py).  The Python functions `generate_txt`, `export_tables`, the
per-file branch of `main`'s batch loop, and the ZIP-packaging loop are
shallow-embedded below.  External collaborators (the docling conversion
engine, pandas) are modelled through their contracts: a conversion yields a
result carrying a status flag and a document element stream; a spreadsheet is
a named collection of sheet grids; `export_to_dataframe` of a table either
yields its row/column grid or raises (modelled as `Option`).
-/

namespace VisionParse

/-- Row/column data of one table, as produced by `export_to_dataframe`. -/
abbrev Grid := List (List String)

/-- One element of the document model stream (`res.document.iterate_items()`).
`heading` models an item carrying an `int` `level` attribute and a `text`
attribute; `textBlock` an item with only `text`; `table` a `TableItem` whose
`export_to_dataframe` either returns a grid (`some`) or raises (`none`);
`picture` a `PictureItem`. -/
inductive Element where
  | heading (level : Nat) (text : String)
  | textBlock (text : String)
  | table (exported : Option Grid)
  | picture
deriving DecidableEq

/-- A docling `ConversionResult` as used by `main`: a success status (which
`app.py` never inspects, since `convert_all` is called with
`raises_on_error=False`) and the document's element stream. -/
structure ConversionResult where
  ok : Bool
  doc : List Element
deriving DecidableEq

/-- One uploaded file as dispatched by `main`'s batch loop: an `xlsx` input is
handled by the pandas branch and carries its named sheets; every other input
goes through the converter and carries its conversion result plus the names of
the generated image files present in the job's working directory (the
side-channel consumed by `generate_txt`'s glob). -/
inductive FileInput where
  | xlsx (name : String) (sheets : List (String × Grid))
  | other (name : String) (conv : ConversionResult) (gen : List String)
deriving DecidableEq

/-- Artifact kind, assigned at creation time (spec section 3). -/
inductive Kind where
  | structuredMarkup
  | htmlLike
  | machineRecord
  | annotatedText
  | tabularCsv
  | rasterImage
  | auxiliary
deriving DecidableEq

/-- One artifact file written into a job's working directory. -/
structure Write where
  dir : String
  file : String
  kind : Kind
deriving DecidableEq

/-! ### String helpers: Python `str.strip`, `pathlib` stem/suffix -/

/-- Python `str.strip()`: remove leading and trailing whitespace. -/
def pyStrip (s : String) : String :=
  String.mk (((s.data.dropWhile Char.isWhitespace).reverse.dropWhile
    Char.isWhitespace).reverse)

/-- Python `str.lower()` on one character (ASCII case mapping, which is all
the artifact suffixes use). -/
def lowerChar (c : Char) : Char :=
  if 65 ≤ c.toNat ∧ c.toNat ≤ 90 then Char.ofNat (c.toNat + 32) else c

/-- Python `str.lower()`. -/
def pyLower (s : String) : String := String.mk (s.data.map lowerChar)

/-- Index of the last '.' in a character list (Python `str.rfind('.')`),
`none` when there is no dot. -/
def lastDotIdx : List Char → Option Nat
  | [] => none
  | c :: cs =>
    match lastDotIdx cs with
    | some i => some (i + 1)
    | none => if c = '.' then some 0 else none

/-- Python `pathlib.PurePath(name).stem`: the file name without its final suffix.
CPython: `i = name.rfind('.'); name[:i] if 0 < i < len(name) - 1 else name`. -/
def stemOf (name : String) : String :=
  let cs := name.data
  match lastDotIdx cs with
  | some i => if 0 < i ∧ i < cs.length - 1 then String.mk (cs.take i) else name
  | none => name

/-- Python `pathlib.PurePath(name).suffix`: the final suffix including the dot, or
the empty string. -/
def suffixOf (name : String) : String :=
  let cs := name.data
  match lastDotIdx cs with
  | some i => if 0 < i ∧ i < cs.length - 1 then String.mk (cs.drop i) else ""
  | none => ""

/-! ### The annotated-text reconciler, `generate_txt` (app.py lines 96-117) -/

/-- Lexicographic comparison of character lists by code point, the order
Python uses to sort strings (and `Path`s of a common directory). -/
def lexLe : List Char → List Char → Bool
  | [], _ => true
  | _ :: _, [] => false
  | a :: as, b :: bs =>
    if a.toNat < b.toNat then true
    else if b.toNat < a.toNat then false
    else lexLe as bs

/-- String comparison used by Python `sorted`. -/
def strLe (a b : String) : Bool := lexLe a.data b.data

/-- Insert into a sorted list (auxiliary for `sortStrings`). -/
def insertSorted (x : String) : List String → List String
  | [] => [x]
  | y :: ys => if strLe x y then x :: y :: ys else y :: insertSorted x ys

/-- Python `sorted` on strings: the unique sorted rearrangement. -/
def sortStrings : List String → List String
  | [] => []
  | x :: xs => insertSorted x (sortStrings xs)

/-- Whether a file name matches the glob pattern `*.png`. -/
def endsPng (f : String) : Bool :=
  match f.data.reverse with
  | 'g' :: 'n' :: 'p' :: '.' :: _ => true
  | _ => false

/-- Model of `sorted(base.glob("*.png"))`: the png files of the working directory in
sorted order. -/
def sortedPngs (files : List String) : List String :=
  sortStrings (files.filter endsPng)

/-- Model of `df.to_string(index=False)` for an exported grid: row/column order
preserved, rows on separate lines (exact cell padding is
implementation-defined; a single space is used here). -/
def gridToString (g : Grid) : String :=
  String.intercalate "\n" (g.map (fun r => String.intercalate " " r))

/-- app.py line 110: `imgs[pi].name if pi < len(imgs) else
f"{base.name}_img_{pi+1}.png"`. -/
def picName (stem : String) (imgs : List String) (pi : Nat) : String :=
  match imgs[pi]? with
  | some f => f
  | none => stem ++ "_img_" ++ toString (pi + 1) ++ ".png"

/-- One iteration of `generate_txt`'s element loop.  State: the accumulated
`lines`, the table counter `ti` and the picture counter `pi`.  A `TableItem`
whose `export_to_dataframe` raises makes the whole pass raise (`Except.error`);
there is no handler in the source. -/
def gtStep (stem : String) (imgs : List String)
    (st : List String × Nat × Nat) (el : Element) :
    Except Unit (List String × Nat × Nat) :=
  match st, el with
  | (lines, ti, pi), .heading lvl text =>
    let txt := pyStrip text
    if txt = "" then .ok (lines, ti, pi)
    else .ok (lines ++ [String.mk (List.replicate lvl '#') ++ " " ++ txt], ti, pi)
  | (lines, ti, pi), .table ex =>
    match ex with
    | none => .error ()
    | some g =>
      .ok (lines ++ ["[Table " ++ toString (ti + 1) ++ "]", gridToString g],
        ti + 1, pi)
  | (lines, ti, pi), .picture =>
    .ok (lines ++ ["[Image: " ++ picName stem imgs pi ++ "]"], ti, pi + 1)
  | (lines, ti, pi), .textBlock text =>
    let txt := pyStrip text
    if txt = "" then .ok (lines, ti, pi) else .ok (lines ++ [txt], ti, pi)

/-- The list of lines accumulated by `generate_txt` before the final join. -/
def gtLines (stem : String) (els : List Element) (files : List String) :
    Except Unit (List String) :=
  (els.foldlM (gtStep stem (sortedPngs files)) ([], 0, 0)).map (fun st => st.1)

/-- The reconciler `generate_txt` (app.py lines 96-117): the contents written to
`<stem>.txt`, namely `"\n\n".join(lines)`, or an exception if a table export
raises. -/
def generate_txt (stem : String) (els : List Element) (files : List String) :
    Except Unit String :=
  (gtLines stem els files).map (fun ls => String.intercalate "\n\n" ls)

/-! ### The table extractor, `export_tables` (app.py lines 86-94) -/

/-- Adapter contract for `doc.tables`: docling's `DoclingDocument.tables`
lists the document's `TableItem`s in element-stream order. -/
def docTables (els : List Element) : List (Option Grid) :=
  els.filterMap (fun e =>
    match e with
    | .table ex => some ex
    | _ => none)

/-- The loop body of `export_tables`: for the tables in order, numbered from
`i`, export each to a dataframe (raising aborts the function) and write
`<stem>_table_<i>.csv`; returns the (file name, grid) pairs written. -/
def exportGo (stem : String) : Nat → List (Option Grid) →
    Except Unit (List (String × Grid))
  | _, [] => .ok []
  | i, t :: ts =>
    match t with
    | none => .error ()
    | some g =>
      (exportGo stem (i + 1) ts).map
        (fun rest => (stem ++ "_table_" ++ toString i ++ ".csv", g) :: rest)

/-- The extractor `export_tables` (app.py lines 86-94): writes one CSV per table, numbered
from 1 in `doc.tables` order, only when `extract_tables` is set. -/
def export_tables (stem : String) (els : List Element) (et : Bool) :
    Except Unit (List (String × Grid)) :=
  if et then exportGo stem 1 (docTables els) else .ok []

/-! ### Specification-side recursion for the reconciler

`emitE` computes the same line stream as `generate_txt`'s fold, by structural
recursion with explicit counters; the correspondence is proved below and all
reconciler theorems go through it. -/

/-- Number of `Table` elements in a stream. -/
def tcount (els : List Element) : Nat :=
  els.countP (fun e =>
    match e with
    | .table _ => true
    | _ => false)

/-- Number of `Picture` elements in a stream. -/
def pcount (els : List Element) : Nat :=
  els.countP (fun e =>
    match e with
    | .picture => true
    | _ => false)

/-- Successfully exportable table grids of a stream, in order. -/
def gridsOf (els : List Element) : List Grid :=
  els.filterMap (fun e =>
    match e with
    | .table (some g) => some g
    | _ => none)

/-- Structural recursion computing `generate_txt`'s emitted lines from table
counter `ti` and picture counter `pi`. -/
def emitE (stem : String) (imgs : List String) :
    List Element → Nat → Nat → Except Unit (List String)
  | [], _, _ => .ok []
  | .heading lvl text :: rest, ti, pi =>
    let txt := pyStrip text
    if txt = "" then emitE stem imgs rest ti pi
    else
      (emitE stem imgs rest ti pi).map
        (fun ls => (String.mk (List.replicate lvl '#') ++ " " ++ txt) :: ls)
  | .textBlock text :: rest, ti, pi =>
    let txt := pyStrip text
    if txt = "" then emitE stem imgs rest ti pi
    else (emitE stem imgs rest ti pi).map (fun ls => txt :: ls)
  | .table none :: _, _, _ => .error ()
  | .table (some g) :: rest, ti, pi =>
    (emitE stem imgs rest (ti + 1) pi).map
      (fun ls => ("[Table " ++ toString (ti + 1) ++ "]") :: gridToString g :: ls)
  | .picture :: rest, ti, pi =>
    (emitE stem imgs rest ti (pi + 1)).map
      (fun ls => ("[Image: " ++ picName stem imgs pi ++ "]") :: ls)

/-! ### The batch loop of `main` (app.py lines 157-217) -/

/-- The uploaded file's name. -/
def nameOf : FileInput → String
  | .xlsx n _ => n
  | .other n _ _ => n

/-- The generated image files of a job (empty for the spreadsheet branch). -/
def genOf : FileInput → List String
  | .xlsx _ _ => []
  | .other _ _ g => g

/-- Artifacts written while processing one uploaded file, in `main`'s loop
body order (app.py lines 157-217).  The spreadsheet branch (lines 164-174)
bypasses the converter entirely; every other input is converted and exported
as markdown, html, json, annotated text and table CSVs.  An uncaught
exception from `generate_txt` or `export_tables` propagates (`Except.error`)
and aborts the batch. -/
def processFile (et : Bool) (f : FileInput) : Except Unit (List Write) :=
  match f with
  | .xlsx name sheets =>
    let stem := stemOf name
    if et then
      .ok (sheets.flatMap (fun sg =>
        [⟨stem, stem ++ "_" ++ sg.1 ++ ".csv", Kind.tabularCsv⟩,
         ⟨stem, stem ++ "_" ++ sg.1 ++ ".md", Kind.structuredMarkup⟩,
         ⟨stem, stem ++ "_" ++ sg.1 ++ ".html", Kind.htmlLike⟩,
         ⟨stem, stem ++ "_" ++ sg.1 ++ ".txt", Kind.annotatedText⟩]))
    else .ok []
  | .other name conv gen =>
    let stem := stemOf name
    (gtLines stem conv.doc gen).bind (fun _ =>
      (export_tables stem conv.doc et).map (fun csvs =>
        gen.map (fun g => ⟨stem, g, Kind.rasterImage⟩) ++
        [⟨stem, stem ++ ".md", Kind.structuredMarkup⟩,
         ⟨stem, stem ++ ".html", Kind.htmlLike⟩,
         ⟨stem, stem ++ ".json", Kind.machineRecord⟩,
         ⟨stem, stem ++ ".txt", Kind.annotatedText⟩] ++
        csvs.map (fun c => ⟨stem, c.1, Kind.tabularCsv⟩)))

/-- The whole batch loop: artifacts of every job, in processing order.  The
loop has no per-job exception handler, so an exception in one job's
processing aborts the remaining jobs. -/
def runBatch (et : Bool) (files : List FileInput) : Except Unit (List Write) :=
  files.foldlM (fun acc f => (processFile et f).map (fun ws => acc ++ ws)) []

/-! ### The archive builder (app.py lines 248-264) -/

/-- The suffix dispatch of the ZIP loop (app.py lines 254-263), on an
already-lowercased suffix `e`. -/
def bucketPath (pref name e : String) : String :=
  if e = ".md" then pref ++ "/md/" ++ name
  else if e = ".html" then pref ++ "/html/" ++ name
  else if e = ".json" then pref ++ "/json/" ++ name
  else if e = ".txt" then pref ++ "/txt/" ++ name
  else if e = ".csv" then pref ++ "/assets/tables/" ++ name
  else if e = ".png" ∨ e = ".jpg" ∨ e = ".jpeg" then
    pref ++ "/assets/images/" ++ name
  else pref ++ "/" ++ name

/-- Archive member path for a file of a job directory, chosen from the file
name's lowercased suffix (`e = p.suffix.lower()`, app.py line 254). -/
def arcPath (pref name : String) : String :=
  bucketPath pref name (pyLower (suffixOf name))

/-- The ZIP member paths produced by walking every job directory (file-system
iteration order is not contractual; the member set is). -/
def zipEntries (ws : List Write) : List String :=
  ((ws.map Write.dir).dedup).flatMap (fun d =>
    (((ws.filter (fun w => w.dir = d)).map Write.file).dedup).map
      (fun f => arcPath d f))

/-- End-to-end batch: process every file, then package the working
directories into the archive (app.py lines 157-264). -/
def runMain (et : Bool) (files : List FileInput) : Except Unit (List String) :=
  (runBatch et files).map zipEntries

/-- The fixed kind-to-bucket mapping of spec section 4.6, written from the
spec's words: structured-markup to `md`, html-like markup to `html`, machine
record to `json`, annotated text to `txt`, tabular CSV to `assets/tables`,
raster image to `assets/images`, anything else flat under the document stem. -/
def specArc (k : Kind) (pref name : String) : String :=
  match k with
  | .structuredMarkup => pref ++ "/md/" ++ name
  | .htmlLike => pref ++ "/html/" ++ name
  | .machineRecord => pref ++ "/json/" ++ name
  | .annotatedText => pref ++ "/txt/" ++ name
  | .tabularCsv => pref ++ "/assets/tables/" ++ name
  | .rasterImage => pref ++ "/assets/images/" ++ name
  | .auxiliary => pref ++ "/" ++ name

/-- CSV artifact list expected for a grid list, numbered from `i` (the
specification-side companion of `exportGo`). -/
def csvSpec (stem : String) : Nat → List Grid → List (String × Grid)
  | _, [] => []
  | i, g :: gs =>
    (stem ++ "_table_" ++ toString i ++ ".csv", g) :: csvSpec stem (i + 1) gs

/-! ### Order-theoretic facts about the sort used for the image glob -/

theorem lexLe_nil_left (bs : List Char) : lexLe [] bs = true := rfl

theorem lexLe_cons_iff (a b : Char) (as bs : List Char) :
    lexLe (a :: as) (b :: bs) = true ↔
      a.toNat < b.toNat ∨ (a.toNat = b.toNat ∧ lexLe as bs = true) := by
  rcases Nat.lt_trichotomy a.toNat b.toNat with h | h | h
  · simp [lexLe, h]
  · have h1 : ¬ a.toNat < b.toNat := by omega
    have h2 : ¬ b.toNat < a.toNat := by omega
    simp [lexLe, h1, h2, h]
  · have h1 : ¬ a.toNat < b.toNat := by omega
    simp [lexLe, h1, h]
    omega

theorem charToNat_inj {a b : Char} (h : a.toNat = b.toNat) : a = b := by
  have h2 := congrArg Char.ofNat h
  rwa [Char.ofNat_toNat, Char.ofNat_toNat] at h2

theorem lexLe_total : ∀ as bs : List Char, lexLe as bs = true ∨ lexLe bs as = true := by
  intro as
  induction as with
  | nil => intro bs; left; rfl
  | cons a as ih =>
    intro bs
    cases bs with
    | nil => right; rfl
    | cons b bs =>
      rcases Nat.lt_trichotomy a.toNat b.toNat with h | h | h
      · left; rw [lexLe_cons_iff]; exact Or.inl h
      · rcases ih bs with h3 | h3
        · left; rw [lexLe_cons_iff]; exact Or.inr ⟨h, h3⟩
        · right; rw [lexLe_cons_iff]; exact Or.inr ⟨h.symm, h3⟩
      · right; rw [lexLe_cons_iff]; exact Or.inl h

theorem lexLe_antisymm : ∀ as bs : List Char,
    lexLe as bs = true → lexLe bs as = true → as = bs := by
  intro as
  induction as with
  | nil =>
    intro bs h1 h2
    cases bs with
    | nil => rfl
    | cons b bs => simp [lexLe] at h2
  | cons a as ih =>
    intro bs h1 h2
    cases bs with
    | nil => simp [lexLe] at h1
    | cons b bs =>
      rw [lexLe_cons_iff] at h1 h2
      rcases h1 with h1 | ⟨he1, h1⟩
      · rcases h2 with h2 | ⟨he2, h2⟩ <;> omega
      · rcases h2 with h2 | ⟨he2, h2⟩
        · omega
        · rw [charToNat_inj he1, ih bs h1 h2]

theorem lexLe_trans : ∀ as bs cs : List Char,
    lexLe as bs = true → lexLe bs cs = true → lexLe as cs = true := by
  intro as
  induction as with
  | nil => intro bs cs h1 h2; rfl
  | cons a as ih =>
    intro bs cs h1 h2
    cases bs with
    | nil => simp [lexLe] at h1
    | cons b bs =>
      cases cs with
      | nil => simp [lexLe] at h2
      | cons c cs =>
        rw [lexLe_cons_iff] at h1 h2 ⊢
        rcases h1 with h1 | ⟨he1, h1⟩
        · rcases h2 with h2 | ⟨he2, h2⟩
          · exact Or.inl (by omega)
          · exact Or.inl (by omega)
        · rcases h2 with h2 | ⟨he2, h2⟩
          · exact Or.inl (by omega)
          · exact Or.inr ⟨by omega, ih bs cs h1 h2⟩

theorem strLe_total (a b : String) : strLe a b = true ∨ strLe b a = true :=
  lexLe_total a.data b.data

theorem strLe_antisymm {a b : String} (h1 : strLe a b = true)
    (h2 : strLe b a = true) : a = b := by
  cases a with
  | mk da =>
    cases b with
    | mk db => exact congrArg String.mk (lexLe_antisymm da db h1 h2)

theorem strLe_trans {a b c : String} (h1 : strLe a b = true)
    (h2 : strLe b c = true) : strLe a c = true :=
  lexLe_trans a.data b.data c.data h1 h2

/-- The order relation Python `sorted` arranges strings by. -/
def StrLeR (a b : String) : Prop := strLe a b = true

instance : IsAntisymm String StrLeR := ⟨fun _ _ => strLe_antisymm⟩

theorem insertSorted_perm (x : String) (l : List String) :
    (insertSorted x l).Perm (x :: l) := by
  induction l with
  | nil => exact List.Perm.refl _
  | cons y ys ih =>
    by_cases h : strLe x y = true
    · simp [insertSorted, h]
    · simp only [insertSorted, h, if_false]
      exact (ih.cons y).trans (List.Perm.swap x y ys)

theorem insertSorted_sorted (x : String) {l : List String}
    (h : l.Pairwise StrLeR) : (insertSorted x l).Pairwise StrLeR := by
  induction l with
  | nil => simp [insertSorted, List.Pairwise]
  | cons y ys ih =>
    rcases List.pairwise_cons.mp h with ⟨hy, hys⟩
    by_cases hxy : strLe x y = true
    · simp only [insertSorted, hxy, if_true]
      refine List.pairwise_cons.mpr ⟨?_, h⟩
      intro z hz
      rcases List.mem_cons.mp hz with rfl | hz
      · exact hxy
      · exact strLe_trans hxy (hy z hz)
    · simp only [insertSorted, hxy, if_false]
      refine List.pairwise_cons.mpr ⟨?_, ih hys⟩
      intro z hz
      have hmem := (insertSorted_perm x ys).mem_iff.mp hz
      rcases List.mem_cons.mp hmem with rfl | hmem2
      · rcases strLe_total y z with h2 | h2
        · exact h2
        · exact absurd h2 hxy
      · exact hy z hmem2

theorem sortStrings_perm (l : List String) : (sortStrings l).Perm l := by
  induction l with
  | nil => exact List.Perm.refl _
  | cons x xs ih => exact (insertSorted_perm x (sortStrings xs)).trans (ih.cons x)

theorem sortStrings_sorted (l : List String) :
    (sortStrings l).Pairwise StrLeR := by
  induction l with
  | nil => simp [sortStrings, List.Pairwise]
  | cons x xs ih => exact insertSorted_sorted x ih

/-- Two lists with the same multiset of strings sort identically: the sort
result is the unique ordered arrangement. -/
theorem sortStrings_congr {l₁ l₂ : List String} (h : l₁.Perm l₂) :
    sortStrings l₁ = sortStrings l₂ :=
  List.eq_of_perm_of_sorted
    ((sortStrings_perm l₁).trans (h.trans (sortStrings_perm l₂).symm))
    (sortStrings_sorted l₁) (sortStrings_sorted l₂)

/-! ### Correspondence between the loop transcription and `emitE` -/

theorem exceptBind_ok {α β ε : Type} (a : α) (f : α → Except ε β) :
    (Except.ok a >>= f) = f a := rfl

theorem exceptBind_error {α β ε : Type} (e : ε) (f : α → Except ε β) :
    ((Except.error e : Except ε α) >>= f) = Except.error e := rfl

theorem exceptBindF_ok {α β ε : Type} (a : α) (f : α → Except ε β) :
    (Except.ok a : Except ε α).bind f = f a := rfl

theorem exceptBindF_error {α β ε : Type} (e : ε) (f : α → Except ε β) :
    (Except.error e : Except ε α).bind f = Except.error e := rfl

theorem exceptMap_ok {α β ε : Type} (f : α → β) (a : α) :
    (Except.ok a : Except ε α).map f = Except.ok (f a) := rfl

theorem exceptMap_error {α β ε : Type} (f : α → β) (e : ε) :
    (Except.error e : Except ε α).map f = Except.error e := rfl

/-- The state fold of `generate_txt` computes `emitE`'s lines, appended to the
accumulated lines, and advances the two counters by the stream's table and
picture counts. -/
theorem foldlM_gtStep (stem : String) (imgs : List String) :
    ∀ (els : List Element) (lines : List String) (ti pi : Nat),
      els.foldlM (gtStep stem imgs) (lines, ti, pi)
        = (emitE stem imgs els ti pi).map
            (fun ls => (lines ++ ls, ti + tcount els, pi + pcount els)) := by
  intro els
  induction els with
  | nil =>
    intro lines ti pi
    simp only [List.foldlM_nil, emitE, tcount, pcount, List.countP_nil,
      exceptMap_ok, List.append_nil, Nat.add_zero]
    rfl
  | cons e rest ih =>
    intro lines ti pi
    cases e with
    | heading lvl text =>
      rw [List.foldlM_cons]
      by_cases ht : pyStrip text = ""
      · simp only [gtStep, ht, if_pos, exceptBind_ok, ih, emitE]
        simp [tcount, pcount, List.countP_cons]
      · simp only [gtStep, if_neg ht, exceptBind_ok, ih, emitE]
        cases hE : emitE stem imgs rest ti pi with
        | error e => simp [hE, exceptMap_error]
        | ok ls => simp [hE, exceptMap_ok, tcount, pcount, List.countP_cons]
    | textBlock text =>
      rw [List.foldlM_cons]
      by_cases ht : pyStrip text = ""
      · simp only [gtStep, ht, if_pos, exceptBind_ok, ih, emitE]
        simp [tcount, pcount, List.countP_cons]
      · simp only [gtStep, if_neg ht, exceptBind_ok, ih, emitE]
        cases hE : emitE stem imgs rest ti pi with
        | error e => simp [hE, exceptMap_error]
        | ok ls => simp [hE, exceptMap_ok, tcount, pcount, List.countP_cons]
    | table ex =>
      cases ex with
      | none =>
        rw [List.foldlM_cons]
        simp [gtStep, emitE, exceptBind_error, exceptMap_error]
      | some g =>
        rw [List.foldlM_cons]
        simp only [gtStep, exceptBind_ok, ih, emitE]
        cases hE : emitE stem imgs rest (ti + 1) pi with
        | error e => simp [hE, exceptMap_error]
        | ok ls =>
          simp [hE, exceptMap_ok, tcount, pcount, List.countP_cons]
          omega
    | picture =>
      rw [List.foldlM_cons]
      simp only [gtStep, exceptBind_ok, ih, emitE]
      cases hE : emitE stem imgs rest ti (pi + 1) with
      | error e => simp [hE, exceptMap_error]
      | ok ls =>
        simp [hE, exceptMap_ok, tcount, pcount, List.countP_cons]
        omega

/-- Rewriting `gtLines` in terms of `emitE`. -/
theorem gtLines_eq (stem : String) (els : List Element) (files : List String) :
    gtLines stem els files = emitE stem (sortedPngs files) els 0 0 := by
  rw [gtLines, foldlM_gtStep]
  cases emitE stem (sortedPngs files) els 0 0 with
  | error e => simp [exceptMap_error]
  | ok ls => simp [exceptMap_ok]

/-! ### Structural facts about the emitted line stream -/

/-- The reconciler pass raises exactly when some table's export raises. -/
theorem emitE_error_iff (stem : String) (imgs : List String) :
    ∀ (els : List Element) (ti pi : Nat),
      emitE stem imgs els ti pi = Except.error () ↔ Element.table none ∈ els := by
  intro els
  induction els with
  | nil => intro ti pi; simp [emitE]
  | cons e rest ih =>
    intro ti pi
    cases e with
    | heading lvl text =>
      by_cases ht : pyStrip text = ""
      · simp only [emitE, ht, if_pos]
        simp [ih]
      · simp only [emitE, if_neg ht]
        cases hE : emitE stem imgs rest ti pi with
        | error eu =>
          cases eu
          have hm : Element.table none ∈ rest := (ih ti pi).mp hE
          simp [exceptMap_error, hm]
        | ok ls =>
          have hm : Element.table none ∉ rest := fun hmem => by
            rw [(ih ti pi).mpr hmem] at hE
            exact Except.noConfusion hE
          simp [exceptMap_ok, hm]
    | textBlock text =>
      by_cases ht : pyStrip text = ""
      · simp only [emitE, ht, if_pos]
        simp [ih]
      · simp only [emitE, if_neg ht]
        cases hE : emitE stem imgs rest ti pi with
        | error eu =>
          cases eu
          have hm : Element.table none ∈ rest := (ih ti pi).mp hE
          simp [exceptMap_error, hm]
        | ok ls =>
          have hm : Element.table none ∉ rest := fun hmem => by
            rw [(ih ti pi).mpr hmem] at hE
            exact Except.noConfusion hE
          simp [exceptMap_ok, hm]
    | table ex =>
      cases ex with
      | none => simp [emitE]
      | some g =>
        simp only [emitE]
        cases hE : emitE stem imgs rest (ti + 1) pi with
        | error eu =>
          cases eu
          have hm : Element.table none ∈ rest := (ih (ti + 1) pi).mp hE
          simp [exceptMap_error, hm]
        | ok ls =>
          have hm : Element.table none ∉ rest := fun hmem => by
            rw [(ih (ti + 1) pi).mpr hmem] at hE
            exact Except.noConfusion hE
          simp [exceptMap_ok, hm]
    | picture =>
      simp only [emitE]
      cases hE : emitE stem imgs rest ti (pi + 1) with
      | error eu =>
        cases eu
        have hm : Element.table none ∈ rest := (ih ti (pi + 1)).mp hE
        simp [exceptMap_error, hm]
      | ok ls =>
        have hm : Element.table none ∉ rest := fun hmem => by
          rw [(ih ti (pi + 1)).mpr hmem] at hE
          exact Except.noConfusion hE
        simp [exceptMap_ok, hm]

theorem tcount_nil : tcount [] = 0 := rfl

theorem pcount_nil : pcount [] = 0 := rfl

theorem tcount_cons_heading (lvl : Nat) (t : String) (rest : List Element) :
    tcount (Element.heading lvl t :: rest) = tcount rest := by
  simp [tcount, List.countP_cons]

theorem tcount_cons_text (t : String) (rest : List Element) :
    tcount (Element.textBlock t :: rest) = tcount rest := by
  simp [tcount, List.countP_cons]

theorem tcount_cons_table (ex : Option Grid) (rest : List Element) :
    tcount (Element.table ex :: rest) = tcount rest + 1 := by
  simp [tcount, List.countP_cons]

theorem tcount_cons_pic (rest : List Element) :
    tcount (Element.picture :: rest) = tcount rest := by
  simp [tcount, List.countP_cons]

theorem pcount_cons_heading (lvl : Nat) (t : String) (rest : List Element) :
    pcount (Element.heading lvl t :: rest) = pcount rest := by
  simp [pcount, List.countP_cons]

theorem pcount_cons_text (t : String) (rest : List Element) :
    pcount (Element.textBlock t :: rest) = pcount rest := by
  simp [pcount, List.countP_cons]

theorem pcount_cons_table (ex : Option Grid) (rest : List Element) :
    pcount (Element.table ex :: rest) = pcount rest := by
  simp [pcount, List.countP_cons]

theorem pcount_cons_pic (rest : List Element) :
    pcount (Element.picture :: rest) = pcount rest + 1 := by
  simp [pcount, List.countP_cons]

/-- Splitting `emitE` over list append, with the counters advanced by the first
part's table and picture counts. -/
theorem emitE_append (stem : String) (imgs : List String) :
    ∀ (l₁ l₂ : List Element) (ti pi : Nat),
      emitE stem imgs (l₁ ++ l₂) ti pi
        = (emitE stem imgs l₁ ti pi).bind (fun ls₁ =>
            (emitE stem imgs l₂ (ti + tcount l₁) (pi + pcount l₁)).map
              (fun ls₂ => ls₁ ++ ls₂)) := by
  intro l₁
  induction l₁ with
  | nil =>
    intro l₂ ti pi
    simp only [List.nil_append, emitE, Except.bind, tcount_nil, pcount_nil,
      Nat.add_zero]
    cases emitE stem imgs l₂ ti pi with
    | error e => simp [exceptMap_error]
    | ok ls => simp [exceptMap_ok]
  | cons e rest ih =>
    intro l₂ ti pi
    cases e with
    | heading lvl text =>
      rw [List.cons_append, tcount_cons_heading, pcount_cons_heading]
      by_cases ht : pyStrip text = ""
      · simp only [emitE, ht, if_pos, ih]
      · simp only [emitE, if_neg ht, ih]
        cases hE : emitE stem imgs rest ti pi with
        | error eu => simp [hE, Except.bind, exceptMap_error]
        | ok ls =>
          simp only [hE, Except.bind, exceptMap_ok]
          cases emitE stem imgs l₂ (ti + tcount rest) (pi + pcount rest) with
          | error eu => simp [exceptMap_error]
          | ok ls2 => simp [exceptMap_ok]
    | textBlock text =>
      rw [List.cons_append, tcount_cons_text, pcount_cons_text]
      by_cases ht : pyStrip text = ""
      · simp only [emitE, ht, if_pos, ih]
      · simp only [emitE, if_neg ht, ih]
        cases hE : emitE stem imgs rest ti pi with
        | error eu => simp [hE, Except.bind, exceptMap_error]
        | ok ls =>
          simp only [hE, Except.bind, exceptMap_ok]
          cases emitE stem imgs l₂ (ti + tcount rest) (pi + pcount rest) with
          | error eu => simp [exceptMap_error]
          | ok ls2 => simp [exceptMap_ok]
    | table ex =>
      rw [List.cons_append, tcount_cons_table, pcount_cons_table]
      cases ex with
      | none => simp [emitE, Except.bind, exceptMap_error]
      | some g =>
        simp only [emitE, ih]
        cases hE : emitE stem imgs rest (ti + 1) pi with
        | error eu => simp [hE, Except.bind, exceptMap_error]
        | ok ls =>
          simp only [hE, Except.bind, exceptMap_ok]
          have harith : ti + 1 + tcount rest = ti + (tcount rest + 1) := by
            omega
          rw [harith]
          cases emitE stem imgs l₂ (ti + (tcount rest + 1)) (pi + pcount rest) with
          | error eu => simp [exceptMap_error]
          | ok ls2 => simp [exceptMap_ok]
    | picture =>
      rw [List.cons_append, tcount_cons_pic, pcount_cons_pic]
      simp only [emitE, ih]
      cases hE : emitE stem imgs rest ti (pi + 1) with
      | error eu => simp [hE, Except.bind, exceptMap_error]
      | ok ls =>
        simp only [hE, Except.bind, exceptMap_ok]
        have harith : pi + 1 + pcount rest = pi + (pcount rest + 1) := by
          omega
        rw [harith]
        cases emitE stem imgs l₂ (ti + tcount rest) (pi + (pcount rest + 1)) with
        | error eu => simp [exceptMap_error]
        | ok ls2 => simp [exceptMap_ok]

theorem gridsOf_nil : gridsOf [] = [] := rfl

theorem gridsOf_cons_heading (lvl : Nat) (t : String) (rest : List Element) :
    gridsOf (Element.heading lvl t :: rest) = gridsOf rest := by
  simp [gridsOf]

theorem gridsOf_cons_text (t : String) (rest : List Element) :
    gridsOf (Element.textBlock t :: rest) = gridsOf rest := by
  simp [gridsOf]

theorem gridsOf_cons_table_some (g : Grid) (rest : List Element) :
    gridsOf (Element.table (some g) :: rest) = g :: gridsOf rest := by
  simp [gridsOf]

theorem gridsOf_cons_table_none (rest : List Element) :
    gridsOf (Element.table none :: rest) = gridsOf rest := by
  simp [gridsOf]

theorem gridsOf_cons_pic (rest : List Element) :
    gridsOf (Element.picture :: rest) = gridsOf rest := by
  simp [gridsOf]

/-- In a successful pass, the k-th exportable grid appears in the emitted
lines as the label `[Table ti+k+1]` immediately followed by its rendering. -/
theorem emitE_table_label (stem : String) (imgs : List String) :
    ∀ (els : List Element) (ti pi : Nat) (ls : List String),
      emitE stem imgs els ti pi = Except.ok ls →
      ∀ (k : Nat) (g : Grid), (gridsOf els)[k]? = some g →
      ∃ l₁ l₂, ls = l₁ ++ ("[Table " ++ toString (ti + k + 1) ++ "]") ::
        gridToString g :: l₂ := by
  intro els
  induction els with
  | nil => intro ti pi ls hE k g hk; simp [gridsOf_nil] at hk
  | cons e rest ih =>
    intro ti pi ls hE k g hk
    cases e with
    | heading lvl text =>
      rw [gridsOf_cons_heading] at hk
      by_cases ht : pyStrip text = ""
      · simp only [emitE, ht, if_pos] at hE
        exact ih ti pi ls hE k g hk
      · simp only [emitE, if_neg ht] at hE
        cases hE2 : emitE stem imgs rest ti pi with
        | error eu => rw [hE2, exceptMap_error] at hE; exact Except.noConfusion hE
        | ok ls2 =>
          rw [hE2, exceptMap_ok] at hE
          obtain ⟨l₁, l₂, hdec⟩ := ih ti pi ls2 hE2 k g hk
          refine ⟨(String.mk (List.replicate lvl '#') ++ " " ++ pyStrip text)
            :: l₁, l₂, ?_⟩
          cases hE
          rw [hdec, List.cons_append]
    | textBlock text =>
      rw [gridsOf_cons_text] at hk
      by_cases ht : pyStrip text = ""
      · simp only [emitE, ht, if_pos] at hE
        exact ih ti pi ls hE k g hk
      · simp only [emitE, if_neg ht] at hE
        cases hE2 : emitE stem imgs rest ti pi with
        | error eu => rw [hE2, exceptMap_error] at hE; exact Except.noConfusion hE
        | ok ls2 =>
          rw [hE2, exceptMap_ok] at hE
          obtain ⟨l₁, l₂, hdec⟩ := ih ti pi ls2 hE2 k g hk
          refine ⟨pyStrip text :: l₁, l₂, ?_⟩
          cases hE
          rw [hdec, List.cons_append]
    | table ex =>
      cases ex with
      | none => simp [emitE] at hE
      | some g0 =>
        rw [gridsOf_cons_table_some] at hk
        simp only [emitE] at hE
        cases hE2 : emitE stem imgs rest (ti + 1) pi with
        | error eu => rw [hE2, exceptMap_error] at hE; exact Except.noConfusion hE
        | ok ls2 =>
          rw [hE2, exceptMap_ok] at hE
          cases hE
          cases k with
          | zero =>
            rw [List.getElem?_cons_zero] at hk
            cases hk
            exact ⟨[], ls2, by simp⟩
          | succ k =>
            rw [List.getElem?_cons_succ] at hk
            obtain ⟨l₁, l₂, hdec⟩ := ih (ti + 1) pi ls2 hE2 k g hk
            refine ⟨("[Table " ++ toString (ti + 1) ++ "]") ::
              gridToString g0 :: l₁, l₂, ?_⟩
            have harith : ti + 1 + k + 1 = ti + (k + 1) + 1 := by omega
            rw [hdec, harith]
            simp
    | picture =>
      rw [gridsOf_cons_pic] at hk
      simp only [emitE] at hE
      cases hE2 : emitE stem imgs rest ti (pi + 1) with
      | error eu => rw [hE2, exceptMap_error] at hE; exact Except.noConfusion hE
      | ok ls2 =>
        rw [hE2, exceptMap_ok] at hE
        obtain ⟨l₁, l₂, hdec⟩ := ih ti (pi + 1) ls2 hE2 k g hk
        refine ⟨("[Image: " ++ picName stem imgs pi ++ "]") :: l₁, l₂, ?_⟩
        cases hE
        rw [hdec, List.cons_append]

/-! ### Facts about the table extractor -/

/-- When no table's export raises, `doc.tables` is the grid list wrapped in
`some`. -/
theorem docTables_eq (els : List Element) (h : Element.table none ∉ els) :
    docTables els = (gridsOf els).map some := by
  induction els with
  | nil => rfl
  | cons e rest ih =>
    have hrest : Element.table none ∉ rest := fun hm =>
      h (List.mem_cons_of_mem e hm)
    cases e with
    | heading lvl text => simp [docTables, gridsOf, List.filterMap_cons] at ih ⊢; exact ih hrest
    | textBlock text => simp [docTables, gridsOf, List.filterMap_cons] at ih ⊢; exact ih hrest
    | table ex =>
      cases ex with
      | none => exact absurd (List.mem_cons_self _ _) h
      | some g =>
        simp only [docTables, gridsOf, List.filterMap_cons] at ih ⊢
        simp only [List.map_cons]
        rw [ih hrest]
    | picture => simp [docTables, gridsOf, List.filterMap_cons] at ih ⊢; exact ih hrest

/-- When no table's export raises, there are as many exportable grids as
`Table` elements. -/
theorem gridsOf_length (els : List Element) (h : Element.table none ∉ els) :
    (gridsOf els).length = tcount els := by
  induction els with
  | nil => rfl
  | cons e rest ih =>
    have hrest : Element.table none ∉ rest := fun hm =>
      h (List.mem_cons_of_mem e hm)
    cases e with
    | heading lvl text =>
      rw [gridsOf_cons_heading, tcount_cons_heading]; exact ih hrest
    | textBlock text =>
      rw [gridsOf_cons_text, tcount_cons_text]; exact ih hrest
    | table ex =>
      cases ex with
      | none => exact absurd (List.mem_cons_self _ _) h
      | some g =>
        rw [gridsOf_cons_table_some, tcount_cons_table, List.length_cons,
          ih hrest]
    | picture => rw [gridsOf_cons_pic, tcount_cons_pic]; exact ih hrest

/-- On a fully exportable table list the extractor writes exactly the
numbered CSV sequence. -/
theorem exportGo_map_some (stem : String) :
    ∀ (gs : List Grid) (i : Nat),
      exportGo stem i (gs.map some) = Except.ok (csvSpec stem i gs) := by
  intro gs
  induction gs with
  | nil => intro i; rfl
  | cons g rest ih =>
    intro i
    simp only [List.map_cons, exportGo, ih, exceptMap_ok, csvSpec]

/-! ### File-name facts: stems, suffixes and archive buckets -/

theorem data_ne_nil_of_ne_empty {s : String} (h : s ≠ "") : s.data ≠ [] := by
  intro hd
  apply h
  cases s with
  | mk d =>
    cases hd
    rfl

theorem string_mk_ne_empty {cs : List Char} (h : cs ≠ []) :
    String.mk cs ≠ "" := by
  intro he
  exact h (congrArg String.data he)

/-- The stem of a nonempty file name is nonempty. -/
theorem stemOf_ne_empty {name : String} (h : name ≠ "") : stemOf name ≠ "" := by
  rw [stemOf]
  cases hidx : lastDotIdx name.data with
  | none => exact h
  | some i =>
    show (if 0 < i ∧ i < name.data.length - 1 then
      String.mk (name.data.take i) else name) ≠ ""
    by_cases hc : 0 < i ∧ i < name.data.length - 1
    · rw [if_pos hc]
      apply string_mk_ne_empty
      rw [Ne, List.take_eq_nil_iff]
      push_neg
      refine ⟨by omega, data_ne_nil_of_ne_empty h⟩
    · rw [if_neg hc]
      exact h

theorem lastDotIdx_no_dot : ∀ (cs : List Char), '.' ∉ cs → lastDotIdx cs = none := by
  intro cs
  induction cs with
  | nil => intro h; rfl
  | cons c rest ih =>
    intro h
    have hc : c ≠ '.' := fun hr => h (hr ▸ List.mem_cons_self c rest)
    have hrest : '.' ∉ rest := fun hm => h (List.mem_cons_of_mem c hm)
    rw [lastDotIdx, ih hrest]
    simp only [if_neg (fun hcc => hc hcc)]

theorem lastDotIdx_append_dot (l₁ t : List Char) (ht : '.' ∉ t) :
    lastDotIdx (l₁ ++ '.' :: t) = some l₁.length := by
  induction l₁ with
  | nil =>
    rw [List.nil_append, lastDotIdx, lastDotIdx_no_dot t ht]
    simp
  | cons c cs ih =>
    rw [List.cons_append, lastDotIdx, ih]
    rfl

/-- A file name built as `<base>.<ext>` (nonempty base, dot-free nonempty
extension) has suffix `.<ext>`. -/
theorem suffixOf_append_ext (s : String) (t : List Char) (hs : s.data ≠ [])
    (ht : t ≠ []) (hd : '.' ∉ t) :
    suffixOf (s ++ String.mk ('.' :: t)) = String.mk ('.' :: t) := by
  have hdata : (s ++ String.mk ('.' :: t)).data = s.data ++ '.' :: t :=
    String.data_append s (String.mk ('.' :: t))
  rw [suffixOf]
  rw [hdata, lastDotIdx_append_dot s.data t hd]
  have hlen : (s.data ++ '.' :: t).length = s.data.length + (t.length + 1) := by
    simp [List.length_append]
  have hcond : 0 < s.data.length ∧
      s.data.length < (s.data ++ '.' :: t).length - 1 := by
    constructor
    · exact List.length_pos.mpr hs
    · rw [hlen]
      have := List.length_pos.mpr ht
      omega
  show (if 0 < s.data.length ∧ s.data.length < (s.data ++ '.' :: t).length - 1
    then String.mk ((s.data ++ '.' :: t).drop s.data.length) else "")
    = String.mk ('.' :: t)
  rw [if_pos hcond, List.drop_left]

theorem pyLower_dot_md : pyLower ".md" = ".md" := rfl

theorem pyLower_dot_html : pyLower ".html" = ".html" := rfl

theorem pyLower_dot_json : pyLower ".json" = ".json" := rfl

theorem pyLower_dot_txt : pyLower ".txt" = ".txt" := rfl

theorem pyLower_dot_csv : pyLower ".csv" = ".csv" := rfl

theorem bucket_of_md (pref nm : String) :
    bucketPath pref nm ".md" = pref ++ "/md/" ++ nm := rfl

theorem bucket_of_html (pref nm : String) :
    bucketPath pref nm ".html" = pref ++ "/html/" ++ nm := rfl

theorem bucket_of_json (pref nm : String) :
    bucketPath pref nm ".json" = pref ++ "/json/" ++ nm := rfl

theorem bucket_of_txt (pref nm : String) :
    bucketPath pref nm ".txt" = pref ++ "/txt/" ++ nm := rfl

theorem bucket_of_csv (pref nm : String) :
    bucketPath pref nm ".csv" = pref ++ "/assets/tables/" ++ nm := rfl

theorem bucket_of_png (pref nm : String) :
    bucketPath pref nm ".png" = pref ++ "/assets/images/" ++ nm := by
  rw [bucketPath]
  rw [if_neg (by decide), if_neg (by decide), if_neg (by decide),
    if_neg (by decide), if_neg (by decide), if_pos (by decide)]

theorem bucket_of_jpg (pref nm : String) :
    bucketPath pref nm ".jpg" = pref ++ "/assets/images/" ++ nm := by
  rw [bucketPath]
  rw [if_neg (by decide), if_neg (by decide), if_neg (by decide),
    if_neg (by decide), if_neg (by decide), if_pos (by decide)]

theorem bucket_of_jpeg (pref nm : String) :
    bucketPath pref nm ".jpeg" = pref ++ "/assets/images/" ++ nm := by
  rw [bucketPath]
  rw [if_neg (by decide), if_neg (by decide), if_neg (by decide),
    if_neg (by decide), if_neg (by decide), if_pos (by decide)]

theorem arcPath_md (pref s : String) (hs : s.data ≠ []) :
    arcPath pref (s ++ ".md") = pref ++ "/md/" ++ (s ++ ".md") := by
  rw [arcPath, suffixOf_append_ext s ['m', 'd'] hs (by decide) (by decide),
    pyLower_dot_md, bucket_of_md]

theorem arcPath_html (pref s : String) (hs : s.data ≠ []) :
    arcPath pref (s ++ ".html") = pref ++ "/html/" ++ (s ++ ".html") := by
  rw [arcPath,
    suffixOf_append_ext s ['h', 't', 'm', 'l'] hs (by decide) (by decide),
    pyLower_dot_html, bucket_of_html]

theorem arcPath_json (pref s : String) (hs : s.data ≠ []) :
    arcPath pref (s ++ ".json") = pref ++ "/json/" ++ (s ++ ".json") := by
  rw [arcPath,
    suffixOf_append_ext s ['j', 's', 'o', 'n'] hs (by decide) (by decide),
    pyLower_dot_json, bucket_of_json]

theorem arcPath_txt (pref s : String) (hs : s.data ≠ []) :
    arcPath pref (s ++ ".txt") = pref ++ "/txt/" ++ (s ++ ".txt") := by
  rw [arcPath,
    suffixOf_append_ext s ['t', 'x', 't'] hs (by decide) (by decide),
    pyLower_dot_txt, bucket_of_txt]

theorem arcPath_csv (pref s : String) (hs : s.data ≠ []) :
    arcPath pref (s ++ ".csv") = pref ++ "/assets/tables/" ++ (s ++ ".csv") := by
  rw [arcPath,
    suffixOf_append_ext s ['c', 's', 'v'] hs (by decide) (by decide),
    pyLower_dot_csv, bucket_of_csv]

/-- Bounded picture index: the label names the file at that index of the
sorted list. -/
theorem picName_lt (stem : String) (imgs : List String) (pi : Nat)
    (h : pi < imgs.length) : picName stem imgs pi = imgs.get ⟨pi, h⟩ := by
  simp [picName, List.getElem?_eq_getElem h]

/-- Out-of-bounds picture index: the label is the synthesized placeholder. -/
theorem picName_ge (stem : String) (imgs : List String) (pi : Nat)
    (h : imgs.length ≤ pi) :
    picName stem imgs pi = stem ++ "_img_" ++ toString (pi + 1) ++ ".png" := by
  simp [picName, List.getElem?_eq_none h]

/-! ### Claim theorems for the reconciler -/

/-- C2 counterexample: a document whose single table's export raises makes
`generate_txt` raise; no annotated text (in particular no `[Table 1]` label
and no placeholder of any kind) is produced, contradicting the claim that the
label is emitted with an `"<unavailable>"` marker and the pass continues. -/
theorem c2_counterexample :
    generate_txt "doc" [Element.table none, Element.textBlock "after"] []
      = Except.error () := rfl

/-- C2 amended: if any table's export raises during the annotated-text pass,
`generate_txt` propagates the exception and aborts the whole pass (and this
is the only way the pass can fail); no label or placeholder is emitted for
the failing table and the remaining elements are not processed. -/
theorem c2_table_failure_aborts (stem : String) (els : List Element)
    (files : List String) :
    generate_txt stem els files = Except.error () ↔
      Element.table none ∈ els := by
  rw [generate_txt, gtLines_eq]
  cases hE : emitE stem (sortedPngs files) els 0 0 with
  | error eu =>
    cases eu
    have hm := (emitE_error_iff stem (sortedPngs files) els 0 0).mp hE
    simp [exceptMap_error, hm]
  | ok ls =>
    have hm : Element.table none ∉ els := fun hmem => by
      rw [(emitE_error_iff stem (sortedPngs files) els 0 0).mpr hmem] at hE
      exact Except.noConfusion hE
    simp [exceptMap_ok, hm]

/-- C3: in a successful pass, table CSV exports are exactly the numbered
sequence over the encountered grids (1..N, strictly increasing, no gaps),
there are as many grids as `Table` elements, and the k-th grid appears in the
annotated lines under the label `[Table k+1]` immediately followed by the
same grid's rendering that the CSV holds. -/
theorem c3_table_numbering (stem : String) (els : List Element)
    (files : List String) (lines : List String)
    (h : gtLines stem els files = Except.ok lines) :
    export_tables stem els true = Except.ok (csvSpec stem 1 (gridsOf els)) ∧
    (gridsOf els).length = tcount els ∧
    ∀ (k : Nat) (g : Grid), (gridsOf els)[k]? = some g →
      ∃ l₁ l₂, lines = l₁ ++ ("[Table " ++ toString (k + 1) ++ "]") ::
        gridToString g :: l₂ := by
  rw [gtLines_eq] at h
  have hnf : Element.table none ∉ els := fun hmem => by
    rw [(emitE_error_iff stem (sortedPngs files) els 0 0).mpr hmem] at h
    exact Except.noConfusion h
  refine ⟨?_, gridsOf_length els hnf, ?_⟩
  · rw [export_tables, if_pos rfl, docTables_eq els hnf,
      exportGo_map_some stem (gridsOf els) 1]
  · intro k g hk
    obtain ⟨l₁, l₂, hdec⟩ :=
      emitE_table_label stem (sortedPngs files) els 0 0 lines h k g hk
    refine ⟨l₁, l₂, ?_⟩
    rw [hdec]
    simp [Nat.zero_add]

/-- C3 witness: concrete one-table document. -/
theorem c3_witness :
    gtLines "doc" [Element.table (some [["a"]])] []
      = Except.ok ["[Table 1]", "a"] ∧
    export_tables "doc" [Element.table (some [["a"]])] true
      = Except.ok (csvSpec "doc" 1 (gridsOf [Element.table (some [["a"]])])) :=
  ⟨rfl, (c3_table_numbering "doc" [Element.table (some [["a"]])] []
    ["[Table 1]", "a"] rfl).1⟩

/-- C4 counterexample: on the spec's worked example the reconciler does not
produce the claimed string, because `"\n\n".join` separates the `[Table 1]`
label from its grid with a blank line, like every other pair of blocks, not
with a single newline. -/
theorem c4_counterexample :
    generate_txt "doc"
      [Element.heading 1 "Intro", Element.textBlock "hello",
       Element.table (some [["a", "b"], ["1", "2"]]), Element.picture,
       Element.textBlock "bye"] ["doc_img_1.png"]
    ≠ Except.ok
      "# Intro\n\nhello\n\n[Table 1]\na b\n1 2\n\n[Image: doc_img_1.png]\n\nbye" := by
  intro h
  have hA : generate_txt "doc"
      [Element.heading 1 "Intro", Element.textBlock "hello",
       Element.table (some [["a", "b"], ["1", "2"]]), Element.picture,
       Element.textBlock "bye"] ["doc_img_1.png"]
      = Except.ok
        "# Intro\n\nhello\n\n[Table 1]\n\na b\n1 2\n\n[Image: doc_img_1.png]\n\nbye" :=
    rfl
  rw [hA] at h
  exact absurd (Except.ok.inj h) (by decide)

/-- C4 amended: the worked example produces the annotated text in which the
`[Table 1]` label and its grid are separated by a blank line, exactly like
every other pair of adjacent blocks. -/
theorem c4_worked_example :
    generate_txt "doc"
      [Element.heading 1 "Intro", Element.textBlock "hello",
       Element.table (some [["a", "b"], ["1", "2"]]), Element.picture,
       Element.textBlock "bye"] ["doc_img_1.png"]
    = Except.ok
      "# Intro\n\nhello\n\n[Table 1]\n\na b\n1 2\n\n[Image: doc_img_1.png]\n\nbye" :=
  rfl

/-- C5: in a successful pass, the picture element preceded by `pcount pre`
pictures (i.e. the N-th picture, N = pcount pre + 1) emits exactly one image
label, placed after the lines of the preceding elements; the label names the
N-th sorted generated image when the list is long enough and the synthesized
`<stem>_img_<N>.png` placeholder otherwise, and the image counter advances on
every picture. -/
theorem c5_image_placeholders (stem : String) (files : List String)
    (pre post : List Element) (lines : List String)
    (h : gtLines stem (pre ++ Element.picture :: post) files = Except.ok lines) :
    ∃ l₁ l₂, emitE stem (sortedPngs files) pre 0 0 = Except.ok l₁ ∧
      lines = l₁ ++
        ("[Image: " ++ picName stem (sortedPngs files) (pcount pre) ++ "]") :: l₂ ∧
      (∀ hin : pcount pre < (sortedPngs files).length,
        picName stem (sortedPngs files) (pcount pre)
          = (sortedPngs files).get ⟨pcount pre, hin⟩) ∧
      ((sortedPngs files).length ≤ pcount pre →
        picName stem (sortedPngs files) (pcount pre)
          = stem ++ "_img_" ++ toString (pcount pre + 1) ++ ".png") := by
  rw [gtLines_eq, emitE_append] at h
  cases hpre : emitE stem (sortedPngs files) pre 0 0 with
  | error eu => rw [hpre] at h; exact Except.noConfusion h
  | ok l₁ =>
    rw [hpre] at h
    simp only [Except.bind, Nat.zero_add] at h
    simp only [emitE] at h
    cases hpost : emitE stem (sortedPngs files) post (tcount pre)
        (pcount pre + 1) with
    | error eu =>
      rw [hpost, exceptMap_error, exceptMap_error] at h
      exact Except.noConfusion h
    | ok l₂ =>
      rw [hpost, exceptMap_ok, exceptMap_ok] at h
      refine ⟨l₁, l₂, rfl, ?_, ?_, ?_⟩
      · cases h; rfl
      · intro hin; exact picName_lt stem (sortedPngs files) (pcount pre) hin
      · intro hge; exact picName_ge stem (sortedPngs files) (pcount pre) hge

/-- C5 witness: a document that is a single picture with no generated images
falls back to the synthesized name. -/
theorem c5_witness :
    gtLines "doc" [Element.picture] [] = Except.ok ["[Image: doc_img_1.png]"] ∧
    (∃ l₁ l₂, emitE "doc" (sortedPngs []) [] 0 0 = Except.ok l₁ ∧
      ["[Image: doc_img_1.png]"] = l₁ ++
        ("[Image: " ++ picName "doc" (sortedPngs []) (pcount []) ++ "]") :: l₂ ∧
      (∀ hin : pcount [] < (sortedPngs []).length,
        picName "doc" (sortedPngs []) (pcount [])
          = (sortedPngs []).get ⟨pcount [], hin⟩) ∧
      ((sortedPngs []).length ≤ pcount [] →
        picName "doc" (sortedPngs []) (pcount [])
          = "doc" ++ "_img_" ++ toString (pcount [] + 1) ++ ".png")) :=
  ⟨rfl, c5_image_placeholders "doc" [] [] [] ["[Image: doc_img_1.png]"] rfl⟩

/-- C9: the reconciler is pure and deterministic: running it twice on the
same document and file set gives the same text, and its output depends on
the working directory's files only through the sorted png list, so any
reordering (e.g. file-system iteration order) of the same files leaves the
annotated text byte-identical. -/
theorem c9_reconciler_deterministic (stem : String) (els : List Element)
    (files1 files2 : List String) (h : files1.Perm files2) :
    generate_txt stem els files1 = generate_txt stem els files1 ∧
    generate_txt stem els files1 = generate_txt stem els files2 := by
  refine ⟨rfl, ?_⟩
  have hs : sortedPngs files1 = sortedPngs files2 :=
    sortStrings_congr (h.filter endsPng)
  rw [generate_txt, generate_txt, gtLines_eq, gtLines_eq, hs]

/-- C9 witness: a concrete permutation of the image files. -/
theorem c9_witness :
    generate_txt "doc" [Element.picture] ["b.png", "a.png"]
      = generate_txt "doc" [Element.picture] ["a.png", "b.png"] :=
  (c9_reconciler_deterministic "doc" [Element.picture] ["b.png", "a.png"]
    ["a.png", "b.png"] (by decide)).2

/-- C10: with `extract_tables` disabled the extractor writes no CSV at all
(and no processed file's artifact has the tabular-CSV kind), while the
annotated text still renders every table's grid: the table whose stream
prefix is `pre` is rendered under its label with its full grid. -/
theorem c10_tables_in_txt_unconditional (stem : String) (pre post : List Element)
    (g : Grid) (files : List String) (lines : List String)
    (h : gtLines stem (pre ++ Element.table (some g) :: post) files
      = Except.ok lines) :
    export_tables stem (pre ++ Element.table (some g) :: post) false
      = Except.ok [] ∧
    (∃ l₁ l₂, lines = l₁ ++ ("[Table " ++ toString (tcount pre + 1) ++ "]") ::
      gridToString g :: l₂) ∧
    (∀ (name : String) (conv : ConversionResult) (gen : List String)
      (ws : List Write),
      processFile false (FileInput.other name conv gen) = Except.ok ws →
      ∀ w ∈ ws, w.kind ≠ Kind.tabularCsv) := by
  refine ⟨rfl, ?_, ?_⟩
  · rw [gtLines_eq, emitE_append] at h
    cases hpre : emitE stem (sortedPngs files) pre 0 0 with
    | error eu => rw [hpre] at h; exact Except.noConfusion h
    | ok l₁ =>
      rw [hpre] at h
      simp only [Except.bind, Nat.zero_add] at h
      simp only [emitE] at h
      cases hpost : emitE stem (sortedPngs files) post (tcount pre + 1)
          (pcount pre) with
      | error eu =>
        rw [hpost, exceptMap_error, exceptMap_error] at h
        exact Except.noConfusion h
      | ok l₂ =>
        rw [hpost, exceptMap_ok, exceptMap_ok] at h
        cases h
        exact ⟨l₁, l₂, rfl⟩
  · intro name conv gen ws hws w hw
    simp only [processFile] at hws
    cases hgt : gtLines (stemOf name) conv.doc gen with
    | error eu => rw [hgt] at hws; exact Except.noConfusion hws
    | ok ls =>
      rw [hgt, exceptBindF_ok] at hws
      rw [show export_tables (stemOf name) conv.doc false = Except.ok [] from rfl,
        exceptMap_ok] at hws
      cases hws
      simp only [List.map_nil, List.append_nil, List.mem_append,
        List.mem_map, List.mem_cons, List.mem_singleton] at hw
      rcases hw with ⟨g2, hg2, rfl⟩ | hw
      · intro hk; exact Kind.noConfusion hk
      · rcases hw with rfl | rfl | rfl | rfl | hfalse
        · intro hk; exact Kind.noConfusion hk
        · intro hk; exact Kind.noConfusion hk
        · intro hk; exact Kind.noConfusion hk
        · intro hk; exact Kind.noConfusion hk
        · exact absurd hfalse (List.not_mem_nil w)

/-- C10 witness: one-table document with extraction disabled. -/
theorem c10_witness :
    gtLines "doc" [Element.table (some [["a"]])] []
      = Except.ok ["[Table 1]", "a"] ∧
    export_tables "doc" [Element.table (some [["a"]])] false = Except.ok [] :=
  ⟨rfl, (c10_tables_in_txt_unconditional "doc" [] [] [["a"]] []
    ["[Table 1]", "a"] rfl).1⟩

/-! ### Facts about the batch loop and the archive -/

/-- Every artifact a job writes goes into the working directory keyed by the
sanitized stem of the job's file name. -/
theorem processFile_dir (et : Bool) (f : FileInput) (ws : List Write)
    (hws : processFile et f = Except.ok ws) :
    ∀ w ∈ ws, w.dir = stemOf (nameOf f) := by
  intro w hw
  cases f with
  | xlsx name sheets =>
    cases et with
    | false =>
      have h2 : (Except.ok [] : Except Unit (List Write)) = Except.ok ws := hws
      obtain rfl := Except.ok.inj h2
      exact absurd hw (List.not_mem_nil w)
    | true =>
      simp only [processFile, if_pos] at hws
      obtain rfl := Except.ok.inj hws
      rw [List.mem_flatMap] at hw
      obtain ⟨sg, hsg, hmem⟩ := hw
      simp only [List.mem_cons, List.not_mem_nil, or_false] at hmem
      rcases hmem with rfl | rfl | rfl | rfl <;> rfl
  | other name conv gen =>
    simp only [processFile] at hws
    cases hgt : gtLines (stemOf name) conv.doc gen with
    | error eu => rw [hgt, exceptBindF_error] at hws; exact Except.noConfusion hws
    | ok ls =>
      rw [hgt, exceptBindF_ok] at hws
      cases hex : export_tables (stemOf name) conv.doc et with
      | error eu => rw [hex, exceptMap_error] at hws; exact Except.noConfusion hws
      | ok csvs =>
        rw [hex, exceptMap_ok] at hws
        obtain rfl := Except.ok.inj hws
        simp only [List.mem_append, List.mem_map, List.mem_cons,
          List.not_mem_nil, or_false] at hw
        rcases hw with (⟨g2, hg2, rfl⟩ | rfl | rfl | rfl | rfl) | ⟨c, hc, rfl⟩
          <;> rfl

/-- Every CSV the table extractor reports is named
`<stem>_table_<j>.csv`. -/
theorem exportGo_names (stem : String) :
    ∀ (ts : List (Option Grid)) (i : Nat) (csvs : List (String × Grid)),
      exportGo stem i ts = Except.ok csvs →
      ∀ c ∈ csvs, ∃ j : Nat, c.1 = stem ++ "_table_" ++ toString j ++ ".csv" := by
  intro ts
  induction ts with
  | nil =>
    intro i csvs h c hc
    obtain rfl := Except.ok.inj h
    exact absurd hc (List.not_mem_nil c)
  | cons t rest ih =>
    intro i csvs h c hc
    cases t with
    | none => exact Except.noConfusion h
    | some g =>
      simp only [exportGo] at h
      cases hrest : exportGo stem (i + 1) rest with
      | error eu => rw [hrest, exceptMap_error] at h; exact Except.noConfusion h
      | ok more =>
        rw [hrest, exceptMap_ok] at h
        obtain rfl := Except.ok.inj h
        rcases List.mem_cons.mp hc with rfl | hc2
        · exact ⟨i, rfl⟩
        · exact ih (i + 1) more hrest c hc2

/-- Every CSV `export_tables` reports is named `<stem>_table_<j>.csv`. -/
theorem export_tables_names (stem : String) (els : List Element) (et : Bool)
    (csvs : List (String × Grid))
    (h : export_tables stem els et = Except.ok csvs) :
    ∀ c ∈ csvs, ∃ j : Nat, c.1 = stem ++ "_table_" ++ toString j ++ ".csv" := by
  cases et with
  | false =>
    have h2 : (Except.ok [] : Except Unit (List (String × Grid)))
      = Except.ok csvs := h
    obtain rfl := Except.ok.inj h2
    intro c hc
    exact absurd hc (List.not_mem_nil c)
  | true =>
    simp only [export_tables, if_pos] at h
    exact exportGo_names stem (docTables els) 1 csvs h

/-- A name of the form `<s>_<t>` is never a name of the form `<s>.<ext>`. -/
theorem underscore_file_ne (s t r : String) (hr : ∃ cs, r.data = '.' :: cs) :
    s ++ "_" ++ t ≠ s ++ r := by
  intro h
  obtain ⟨cs, hcs⟩ := hr
  have hd := congrArg String.data h
  simp only [String.data_append] at hd
  rw [hcs, List.append_assoc] at hd
  have h2 := List.append_cancel_left hd
  rw [List.singleton_append] at h2
  injection h2 with h3 h4
  exact absurd h3 (by decide)

/-- A sheet-derived file name collides with none of the four
document-model-derived artifact names. -/
theorem sheet_file_ne_model (s t : String) :
    s ++ "_" ++ t ≠ s ++ ".md" ∧ s ++ "_" ++ t ≠ s ++ ".html" ∧
    s ++ "_" ++ t ≠ s ++ ".json" ∧ s ++ "_" ++ t ≠ s ++ ".txt" :=
  ⟨underscore_file_ne s t ".md" ⟨['m', 'd'], rfl⟩,
   underscore_file_ne s t ".html" ⟨['h', 't', 'm', 'l'], rfl⟩,
   underscore_file_ne s t ".json" ⟨['j', 's', 'o', 'n'], rfl⟩,
   underscore_file_ne s t ".txt" ⟨['t', 'x', 't'], rfl⟩⟩

/-- Membership in the archive: exactly the bucket paths of the written
artifacts. -/
theorem zipEntries_mem (ws : List Write) (s : String) :
    s ∈ zipEntries ws ↔ ∃ w ∈ ws, s = arcPath w.dir w.file := by
  rw [zipEntries]
  constructor
  · intro hs
    rw [List.mem_flatMap] at hs
    obtain ⟨d, hd, hs2⟩ := hs
    rw [List.mem_map] at hs2
    obtain ⟨fl, hfl, rfl⟩ := hs2
    rw [List.mem_dedup, List.mem_map] at hfl
    obtain ⟨w, hwf, rfl⟩ := hfl
    rw [List.mem_filter] at hwf
    obtain ⟨hww, hwd⟩ := hwf
    have hd2 : w.dir = d := by simpa using hwd
    exact ⟨w, hww, by rw [hd2]⟩
  · rintro ⟨w, hw, rfl⟩
    rw [List.mem_flatMap]
    refine ⟨w.dir, ?_, ?_⟩
    · rw [List.mem_dedup, List.mem_map]
      exact ⟨w, hw, rfl⟩
    · rw [List.mem_map]
      refine ⟨w.file, ?_, rfl⟩
      rw [List.mem_dedup, List.mem_map]
      exact ⟨w, List.mem_filter.mpr ⟨hw, by simp⟩, rfl⟩

/-! ### Claim theorems for the batch loop and the archive -/

/-- C1 counterexample: a batch with one failure-status conversion and one
good document.  The loop does continue, but the failing job is processed
exactly like a success: its (empty-document) markdown, html, json and
annotated-text artifacts are all written and all placed in the archive under
its stem, and nothing records or reports a failed job — contradicting the
claim that a failing job transitions to Failed, is reported by name, and is
excluded from the archive. -/
theorem c1_counterexample :
    runMain false
      [FileInput.other "bad.pdf" ⟨false, []⟩ [],
       FileInput.other "g1.pdf" ⟨true, [Element.textBlock "hello"]⟩ []]
    = Except.ok
      ["bad/md/bad.md", "bad/html/bad.html", "bad/json/bad.json",
       "bad/txt/bad.txt", "g1/md/g1.md", "g1/html/g1.html", "g1/json/g1.json",
       "g1/txt/g1.txt"] ∧
    "bad/md/bad.md" ∈
      ["bad/md/bad.md", "bad/html/bad.html", "bad/json/bad.json",
       "bad/txt/bad.txt", "g1/md/g1.md", "g1/html/g1.html", "g1/json/g1.json",
       "g1/txt/g1.txt"] :=
  ⟨rfl, by decide⟩

/-- C1 amended: the loop does continue past a conversion failure (the
converter is invoked with `raises_on_error=False`), but no job is ever
transitioned to a Failed state, reported by name, or excluded from the
archive: the orchestrator's entire output is independent of every conversion
result's status and depends only on its document, so a failed conversion's
exported artifacts are produced and archived exactly like a success's. -/
theorem c1_status_never_inspected (et : Bool) (name : String)
    (c₁ c₂ : ConversionResult) (gen : List String) (rest : List FileInput)
    (h : c₁.doc = c₂.doc) :
    runMain et (FileInput.other name c₁ gen :: rest)
      = runMain et (FileInput.other name c₂ gen :: rest) := by
  cases c₁ with
  | mk ok₁ doc₁ =>
    cases c₂ with
    | mk ok₂ doc₂ =>
      simp only at h
      subst h
      rfl

/-- C1 witness: a failed and a successful status give identical batches. -/
theorem c1_witness :
    (ConversionResult.mk false [] : ConversionResult).doc
        = (ConversionResult.mk true [] : ConversionResult).doc ∧
    runMain false [FileInput.other "bad.pdf" ⟨false, []⟩ []]
      = runMain false [FileInput.other "bad.pdf" ⟨true, []⟩ []] :=
  ⟨rfl, c1_status_never_inspected false "bad.pdf" ⟨false, []⟩ ⟨true, []⟩ [] [] rfl⟩

/-- C6: the archive bucket of every artifact the pipeline writes agrees with
the fixed kind-to-bucket mapping of the spec (structured markup to `md`,
html-like to `html`, machine record to `json`, annotated text to `txt`,
tabular CSV to `assets/tables`, raster image to `assets/images`), and the
archive's member-path set is determined by the artifact set alone: any
reordering of the same writes yields the same member set. -/
theorem c6_archive_buckets :
    (∀ (et : Bool) (f : FileInput) (ws : List Write),
      nameOf f ≠ "" →
      (∀ g ∈ genOf f, pyLower (suffixOf g) = ".png" ∨
        pyLower (suffixOf g) = ".jpg" ∨ pyLower (suffixOf g) = ".jpeg") →
      processFile et f = Except.ok ws →
      ∀ w ∈ ws, arcPath w.dir w.file = specArc w.kind w.dir w.file) ∧
    (∀ ws₁ ws₂ : List Write, ws₁.Perm ws₂ →
      ∀ s, s ∈ zipEntries ws₁ ↔ s ∈ zipEntries ws₂) := by
  constructor
  · intro et f ws hname hraster hws w hw
    cases f with
    | xlsx name sheets =>
      cases et with
      | false =>
        have h2 : (Except.ok [] : Except Unit (List Write)) = Except.ok ws := hws
        obtain rfl := Except.ok.inj h2
        exact absurd hw (List.not_mem_nil w)
      | true =>
        simp only [processFile, if_pos] at hws
        obtain rfl := Except.ok.inj hws
        rw [List.mem_flatMap] at hw
        obtain ⟨sg, hsg, hmem⟩ := hw
        have hsd : ((stemOf name ++ "_") ++ sg.1).data ≠ [] := by
          simp [String.data_append]
        simp only [List.mem_cons, List.not_mem_nil, or_false] at hmem
        rcases hmem with rfl | rfl | rfl | rfl
        · show arcPath (stemOf name) (stemOf name ++ "_" ++ sg.1 ++ ".csv")
            = specArc Kind.tabularCsv (stemOf name)
              (stemOf name ++ "_" ++ sg.1 ++ ".csv")
          rw [arcPath_csv (stemOf name) (stemOf name ++ "_" ++ sg.1) hsd]
          rfl
        · show arcPath (stemOf name) (stemOf name ++ "_" ++ sg.1 ++ ".md")
            = specArc Kind.structuredMarkup (stemOf name)
              (stemOf name ++ "_" ++ sg.1 ++ ".md")
          rw [arcPath_md (stemOf name) (stemOf name ++ "_" ++ sg.1) hsd]
          rfl
        · show arcPath (stemOf name) (stemOf name ++ "_" ++ sg.1 ++ ".html")
            = specArc Kind.htmlLike (stemOf name)
              (stemOf name ++ "_" ++ sg.1 ++ ".html")
          rw [arcPath_html (stemOf name) (stemOf name ++ "_" ++ sg.1) hsd]
          rfl
        · show arcPath (stemOf name) (stemOf name ++ "_" ++ sg.1 ++ ".txt")
            = specArc Kind.annotatedText (stemOf name)
              (stemOf name ++ "_" ++ sg.1 ++ ".txt")
          rw [arcPath_txt (stemOf name) (stemOf name ++ "_" ++ sg.1) hsd]
          rfl
    | other name conv gen =>
      have hstem : (stemOf name).data ≠ [] :=
        data_ne_nil_of_ne_empty (stemOf_ne_empty hname)
      simp only [processFile] at hws
      cases hgt : gtLines (stemOf name) conv.doc gen with
      | error eu =>
        rw [hgt, exceptBindF_error] at hws
        exact Except.noConfusion hws
      | ok ls =>
        rw [hgt, exceptBindF_ok] at hws
        cases hex : export_tables (stemOf name) conv.doc et with
        | error eu =>
          rw [hex, exceptMap_error] at hws
          exact Except.noConfusion hws
        | ok csvs =>
          rw [hex, exceptMap_ok] at hws
          obtain rfl := Except.ok.inj hws
          simp only [List.mem_append, List.mem_map, List.mem_cons,
            List.not_mem_nil, or_false] at hw
          rcases hw with (⟨g2, hg2, rfl⟩ | rfl | rfl | rfl | rfl) | ⟨c, hc, rfl⟩
          · show arcPath (stemOf name) g2
              = specArc Kind.rasterImage (stemOf name) g2
            rcases hraster g2 hg2 with hsuf | hsuf | hsuf
            · rw [arcPath, hsuf, bucket_of_png]; rfl
            · rw [arcPath, hsuf, bucket_of_jpg]; rfl
            · rw [arcPath, hsuf, bucket_of_jpeg]; rfl
          · show arcPath (stemOf name) (stemOf name ++ ".md")
              = specArc Kind.structuredMarkup (stemOf name) (stemOf name ++ ".md")
            rw [arcPath_md (stemOf name) (stemOf name) hstem]
            rfl
          · show arcPath (stemOf name) (stemOf name ++ ".html")
              = specArc Kind.htmlLike (stemOf name) (stemOf name ++ ".html")
            rw [arcPath_html (stemOf name) (stemOf name) hstem]
            rfl
          · show arcPath (stemOf name) (stemOf name ++ ".json")
              = specArc Kind.machineRecord (stemOf name) (stemOf name ++ ".json")
            rw [arcPath_json (stemOf name) (stemOf name) hstem]
            rfl
          · show arcPath (stemOf name) (stemOf name ++ ".txt")
              = specArc Kind.annotatedText (stemOf name) (stemOf name ++ ".txt")
            rw [arcPath_txt (stemOf name) (stemOf name) hstem]
            rfl
          · show arcPath (stemOf name) c.1
              = specArc Kind.tabularCsv (stemOf name) c.1
            obtain ⟨j, hj⟩ :=
              export_tables_names (stemOf name) conv.doc et csvs hex c hc
            have hsd : ((stemOf name ++ "_table_") ++ toString j).data ≠ [] := by
              simp [String.data_append]
            rw [hj, arcPath_csv (stemOf name)
              (stemOf name ++ "_table_" ++ toString j) hsd]
            rfl
  · intro ws₁ ws₂ hperm s
    rw [zipEntries_mem, zipEntries_mem]
    constructor
    · rintro ⟨w, hw, rfl⟩
      exact ⟨w, hperm.subset hw, rfl⟩
    · rintro ⟨w, hw, rfl⟩
      exact ⟨w, hperm.symm.subset hw, rfl⟩

/-- C6 witness: a markdown artifact of a concrete job lands in the `md`
bucket. -/
theorem c6_witness :
    arcPath "a" "a.md" = specArc Kind.structuredMarkup "a" "a.md" :=
  c6_archive_buckets.1 false (FileInput.other "a.md" ⟨true, []⟩ [])
    [⟨"a", "a.md", Kind.structuredMarkup⟩, ⟨"a", "a.html", Kind.htmlLike⟩,
     ⟨"a", "a.json", Kind.machineRecord⟩, ⟨"a", "a.txt", Kind.annotatedText⟩]
    (by decide) (by intro g hg; exact absurd hg (List.not_mem_nil g)) rfl
    ⟨"a", "a.md", Kind.structuredMarkup⟩ (by decide)

/-- C7: with `extract_tables` enabled, a spreadsheet input yields exactly one
tabular artifact group per named sheet, keyed `<stem>_<sheet>` (CSV plus
markdown/html/text renderings); there are exactly as many CSV artifacts as
sheets; and no Document-Model-derived artifact (`<stem>.md`, `<stem>.html`,
`<stem>.json`, `<stem>.txt`) is produced for that input. -/
theorem c7_spreadsheet_bypass (name : String) (sheets : List (String × Grid))
    (ws : List Write)
    (hws : processFile true (FileInput.xlsx name sheets) = Except.ok ws) :
    ws = sheets.flatMap (fun sg =>
      [⟨stemOf name, stemOf name ++ "_" ++ sg.1 ++ ".csv", Kind.tabularCsv⟩,
       ⟨stemOf name, stemOf name ++ "_" ++ sg.1 ++ ".md", Kind.structuredMarkup⟩,
       ⟨stemOf name, stemOf name ++ "_" ++ sg.1 ++ ".html", Kind.htmlLike⟩,
       ⟨stemOf name, stemOf name ++ "_" ++ sg.1 ++ ".txt", Kind.annotatedText⟩]) ∧
    (ws.filter (fun w => w.kind = Kind.tabularCsv)).map Write.file
      = sheets.map (fun sg => stemOf name ++ "_" ++ sg.1 ++ ".csv") ∧
    ∀ w ∈ ws, w.file ≠ stemOf name ++ ".md" ∧
      w.file ≠ stemOf name ++ ".html" ∧ w.file ≠ stemOf name ++ ".json" ∧
      w.file ≠ stemOf name ++ ".txt" := by
  simp only [processFile, if_pos] at hws
  obtain rfl := Except.ok.inj hws
  refine ⟨rfl, ?_, ?_⟩
  · induction sheets with
    | nil => rfl
    | cons sg rest ih =>
      simp only [List.flatMap_cons, List.filter_append, List.map_append,
        List.map_cons, ih]
      rfl
  · intro w hw
    rw [List.mem_flatMap] at hw
    obtain ⟨sg, hsg, hmem⟩ := hw
    simp only [List.mem_cons, List.not_mem_nil, or_false] at hmem
    rcases hmem with rfl | rfl | rfl | rfl
    · show stemOf name ++ "_" ++ sg.1 ++ ".csv" ≠ stemOf name ++ ".md" ∧
        stemOf name ++ "_" ++ sg.1 ++ ".csv" ≠ stemOf name ++ ".html" ∧
        stemOf name ++ "_" ++ sg.1 ++ ".csv" ≠ stemOf name ++ ".json" ∧
        stemOf name ++ "_" ++ sg.1 ++ ".csv" ≠ stemOf name ++ ".txt"
      rw [String.append_assoc (stemOf name ++ "_") sg.1 ".csv"]
      exact sheet_file_ne_model (stemOf name) (sg.1 ++ ".csv")
    · show stemOf name ++ "_" ++ sg.1 ++ ".md" ≠ stemOf name ++ ".md" ∧
        stemOf name ++ "_" ++ sg.1 ++ ".md" ≠ stemOf name ++ ".html" ∧
        stemOf name ++ "_" ++ sg.1 ++ ".md" ≠ stemOf name ++ ".json" ∧
        stemOf name ++ "_" ++ sg.1 ++ ".md" ≠ stemOf name ++ ".txt"
      rw [String.append_assoc (stemOf name ++ "_") sg.1 ".md"]
      exact sheet_file_ne_model (stemOf name) (sg.1 ++ ".md")
    · show stemOf name ++ "_" ++ sg.1 ++ ".html" ≠ stemOf name ++ ".md" ∧
        stemOf name ++ "_" ++ sg.1 ++ ".html" ≠ stemOf name ++ ".html" ∧
        stemOf name ++ "_" ++ sg.1 ++ ".html" ≠ stemOf name ++ ".json" ∧
        stemOf name ++ "_" ++ sg.1 ++ ".html" ≠ stemOf name ++ ".txt"
      rw [String.append_assoc (stemOf name ++ "_") sg.1 ".html"]
      exact sheet_file_ne_model (stemOf name) (sg.1 ++ ".html")
    · show stemOf name ++ "_" ++ sg.1 ++ ".txt" ≠ stemOf name ++ ".md" ∧
        stemOf name ++ "_" ++ sg.1 ++ ".txt" ≠ stemOf name ++ ".html" ∧
        stemOf name ++ "_" ++ sg.1 ++ ".txt" ≠ stemOf name ++ ".json" ∧
        stemOf name ++ "_" ++ sg.1 ++ ".txt" ≠ stemOf name ++ ".txt"
      rw [String.append_assoc (stemOf name ++ "_") sg.1 ".txt"]
      exact sheet_file_ne_model (stemOf name) (sg.1 ++ ".txt")

/-- C7 witness: a two-sheet workbook yields exactly the two sheet groups. -/
theorem c7_witness :
    processFile true (FileInput.xlsx "wb.xlsx" [("S1", [["x"]]), ("S2", [["y"]])])
      = Except.ok
        [⟨"wb", "wb_S1.csv", Kind.tabularCsv⟩,
         ⟨"wb", "wb_S1.md", Kind.structuredMarkup⟩,
         ⟨"wb", "wb_S1.html", Kind.htmlLike⟩,
         ⟨"wb", "wb_S1.txt", Kind.annotatedText⟩,
         ⟨"wb", "wb_S2.csv", Kind.tabularCsv⟩,
         ⟨"wb", "wb_S2.md", Kind.structuredMarkup⟩,
         ⟨"wb", "wb_S2.html", Kind.htmlLike⟩,
         ⟨"wb", "wb_S2.txt", Kind.annotatedText⟩] ∧
    ([⟨"wb", "wb_S1.csv", Kind.tabularCsv⟩,
      ⟨"wb", "wb_S1.md", Kind.structuredMarkup⟩,
      ⟨"wb", "wb_S1.html", Kind.htmlLike⟩,
      ⟨"wb", "wb_S1.txt", Kind.annotatedText⟩,
      ⟨"wb", "wb_S2.csv", Kind.tabularCsv⟩,
      ⟨"wb", "wb_S2.md", Kind.structuredMarkup⟩,
      ⟨"wb", "wb_S2.html", Kind.htmlLike⟩,
      ⟨"wb", "wb_S2.txt", Kind.annotatedText⟩].filter
        (fun w : Write => w.kind = Kind.tabularCsv)).map Write.file
      = [("S1", [["x"]]), ("S2", [["y"]])].map
          (fun sg : String × Grid => stemOf "wb.xlsx" ++ "_" ++ sg.1 ++ ".csv") :=
  ⟨rfl, (c7_spreadsheet_bypass "wb.xlsx" [("S1", [["x"]]), ("S2", [["y"]])]
    [⟨"wb", "wb_S1.csv", Kind.tabularCsv⟩,
     ⟨"wb", "wb_S1.md", Kind.structuredMarkup⟩,
     ⟨"wb", "wb_S1.html", Kind.htmlLike⟩,
     ⟨"wb", "wb_S1.txt", Kind.annotatedText⟩,
     ⟨"wb", "wb_S2.csv", Kind.tabularCsv⟩,
     ⟨"wb", "wb_S2.md", Kind.structuredMarkup⟩,
     ⟨"wb", "wb_S2.html", Kind.htmlLike⟩,
     ⟨"wb", "wb_S2.txt", Kind.annotatedText⟩] rfl).2.1⟩

/-- C8 counterexample: two distinct inputs, `a.md` and `a.html`, share the
stem `a`, so both jobs use working directory `a` and both write the identical
artifact path `a/a.txt` (each job's markdown/html/json/txt artifacts collide
file-for-file) — contradicting the claim that no artifact of one job appears
in another job's directory even when stems collide. -/
theorem c8_counterexample :
    "a.md" ≠ "a.html" ∧
    stemOf "a.md" = stemOf "a.html" ∧
    processFile false (FileInput.other "a.md" ⟨true, []⟩ [])
      = Except.ok
        [⟨"a", "a.md", Kind.structuredMarkup⟩, ⟨"a", "a.html", Kind.htmlLike⟩,
         ⟨"a", "a.json", Kind.machineRecord⟩,
         ⟨"a", "a.txt", Kind.annotatedText⟩] ∧
    processFile false (FileInput.other "a.html" ⟨true, []⟩ [])
      = Except.ok
        [⟨"a", "a.md", Kind.structuredMarkup⟩, ⟨"a", "a.html", Kind.htmlLike⟩,
         ⟨"a", "a.json", Kind.machineRecord⟩,
         ⟨"a", "a.txt", Kind.annotatedText⟩] ∧
    (⟨"a", "a.txt", Kind.annotatedText⟩ : Write) ∈
      [⟨"a", "a.md", Kind.structuredMarkup⟩, ⟨"a", "a.html", Kind.htmlLike⟩,
       ⟨"a", "a.json", Kind.machineRecord⟩,
       (⟨"a", "a.txt", Kind.annotatedText⟩ : Write)] :=
  ⟨by decide, rfl, rfl, rfl, by decide⟩

/-- C8 amended: isolation holds exactly up to stem collisions: every artifact
of a job lives in the directory keyed by the job's stem, so two jobs whose
file names have distinct stems never share a directory (and hence never share
an archive prefix); but two distinct inputs with equal stems share one
working directory and their artifacts can collide. -/
theorem c8_isolation_distinct_stems (et : Bool) (f₁ f₂ : FileInput)
    (ws₁ ws₂ : List Write)
    (hne : stemOf (nameOf f₁) ≠ stemOf (nameOf f₂))
    (h₁ : processFile et f₁ = Except.ok ws₁)
    (h₂ : processFile et f₂ = Except.ok ws₂) :
    ∀ w₁ ∈ ws₁, ∀ w₂ ∈ ws₂, w₁.dir ≠ w₂.dir := by
  intro w₁ hw₁ w₂ hw₂ hd
  rw [processFile_dir et f₁ ws₁ h₁ w₁ hw₁,
    processFile_dir et f₂ ws₂ h₂ w₂ hw₂] at hd
  exact hne hd

/-- C8 witness: distinct stems give disjoint directories on a concrete
pair. -/
theorem c8_witness :
    stemOf (nameOf (FileInput.other "a.md" ⟨true, []⟩ []))
        ≠ stemOf (nameOf (FileInput.other "b.md" ⟨true, []⟩ [])) ∧
    ∀ w₁ ∈ [(⟨"a", "a.md", Kind.structuredMarkup⟩ : Write),
        ⟨"a", "a.html", Kind.htmlLike⟩, ⟨"a", "a.json", Kind.machineRecord⟩,
        ⟨"a", "a.txt", Kind.annotatedText⟩],
      ∀ w₂ ∈ [(⟨"b", "b.md", Kind.structuredMarkup⟩ : Write),
        ⟨"b", "b.html", Kind.htmlLike⟩, ⟨"b", "b.json", Kind.machineRecord⟩,
        ⟨"b", "b.txt", Kind.annotatedText⟩],
      w₁.dir ≠ w₂.dir :=
  ⟨by decide,
   c8_isolation_distinct_stems false
    (FileInput.other "a.md" ⟨true, []⟩ []) (FileInput.other "b.md" ⟨true, []⟩ [])
    [⟨"a", "a.md", Kind.structuredMarkup⟩, ⟨"a", "a.html", Kind.htmlLike⟩,
     ⟨"a", "a.json", Kind.machineRecord⟩, ⟨"a", "a.txt", Kind.annotatedText⟩]
    [⟨"b", "b.md", Kind.structuredMarkup⟩, ⟨"b", "b.html", Kind.htmlLike⟩,
     ⟨"b", "b.json", Kind.machineRecord⟩, ⟨"b", "b.txt", Kind.annotatedText⟩]
    (by decide) rfl rfl⟩

end VisionParse
